import Mathlib

/-!
Verification of the gap-statistic / elbow-method material in
`choosing-k-in-kmeans/choosing-k.ipynb`.

The inline source function `calculate_ssq` is embedded directly.  The
gap-statistic estimator lives in the external module `gap_stats.py`, which is
not part of the repository material; those components (dispersion calculator,
reference-distribution generator, gap orchestration and selection rule) are
modelled from the specification text, as marked on each definition.

Numeric values are embedded over an arbitrary linear ordered field `F`
(instantiated at `ℚ` for executable witnesses and at `ℝ` with `Real.log`,
`Real.sqrt` for the statements that mention logarithms and square roots).
-/

namespace ChoosingK

/-- Squared Euclidean distance between two `m`-dimensional points
(`distance.cdist(..., 'euclidean')**2` / `distance.pdist(...)**2` in the
source, before any square root is taken). -/
def sqDist (F : Type) [LinearOrderedField F] {m : ℕ} (p q : Fin m → F) : F :=
  ∑ j, (p j - q j) ^ 2

/-- Minimum of a list of field elements (`np.min`); `0` on the empty list,
which the source never hits because a fitted model has at least one center. -/
def listMin (F : Type) [LinearOrderedField F] : List F → F
  | [] => 0
  | v :: vs => vs.foldl min v

/-- Arithmetic mean of a list of field elements. -/
def listMean (F : Type) [LinearOrderedField F] (l : List F) : F :=
  l.sum / (l.length : F)

/-- The set of point indices assigned to cluster id `c`. -/
def cluster {n : ℕ} (a : Fin n → ℕ) (c : ℕ) : Finset (Fin n) :=
  Finset.univ.filter (fun i => a i = c)

/-- Sum of squared distances over all ordered pairs of points of a cluster
(the paper's `D_r = Σ_{i,i' ∈ C_r} d_{ii'}`). -/
def pairSum (F : Type) [LinearOrderedField F] {n m : ℕ}
    (x : Fin n → Fin m → F) (s : Finset (Fin n)) : F :=
  ∑ i ∈ s, ∑ j ∈ s, sqDist F (x i) (x j)

/-- Modelled from the spec: the `DispersionCalculator` of `gap_stats.py`
(absent from the repository material).  Sum over clusters of the sum of
pairwise squared distances within the cluster divided by (2 × cluster size);
a cluster id with no members contributes `0`. -/
def dispersion (F : Type) [LinearOrderedField F] {n m : ℕ} (k : ℕ)
    (x : Fin n → Fin m → F) (a : Fin n → ℕ) : F :=
  ∑ c ∈ Finset.range k, pairSum F x (cluster a c) / (2 * ((cluster a c).card : F))

/-- Mean (centroid) of the points indexed by `s`. -/
def centroid (F : Type) [LinearOrderedField F] {n m : ℕ}
    (x : Fin n → Fin m → F) (s : Finset (Fin n)) : Fin m → F :=
  fun t => (∑ i ∈ s, x i t) / (s.card : F)

/-- Pooled within-cluster sum of squared distances to cluster centroids. -/
def withinSS (F : Type) [LinearOrderedField F] {n m : ℕ} (k : ℕ)
    (x : Fin n → Fin m → F) (a : Fin n → ℕ) : F :=
  ∑ c ∈ Finset.range k, ∑ i ∈ cluster a c, sqDist F (x i) (centroid F x (cluster a c))

/-- Overall mean of a point set. -/
def overallMean (F : Type) [LinearOrderedField F] {n m : ℕ}
    (data : Fin n → Fin m → F) : Fin m → F :=
  fun t => (∑ i, data i t) / (n : F)

/-- Result of one k-means fit as consumed by `calculate_ssq`: the centroid
list (`km.cluster_centers_`) and the model inertia (`km.inertia_`). -/
structure FitResult (F : Type) (m : ℕ) where
  centers : List (Fin m → F)
  inertia : F

/-- Embeds the source: `totss = sum(distance.pdist(data, 'euclidean')**2) /
data.shape[0]` — the sum, over each unordered pair taken once (`i < j`), of
the squared Euclidean distance, divided by the number of points.  `sq` plays
the role of the floating-point square root used by `pdist`. -/
def totss (F : Type) [LinearOrderedField F] {n m : ℕ} (sq : F → F)
    (data : Fin n → Fin m → F) : F :=
  (∑ i, ∑ j ∈ Finset.univ.filter (fun j => i < j), sq (sqDist F (data i) (data j)) ^ 2) /
    (n : F)

/-- Embeds the source: `dist = np.min(cdist(data, centers, 'euclidean'),
axis=1)` followed by `tot_withinss = sum(dist**2)`. -/
def totWithinss (F : Type) [LinearOrderedField F] {n m : ℕ} (sq : F → F)
    (data : Fin n → Fin m → F) (centers : List (Fin m → F)) : F :=
  ∑ i, listMin F (centers.map (fun c => sq (sqDist F (data i) c))) ^ 2

/-- The loop body of `calculate_ssq` for one fitted model: in the
`variance_norm` branch the entry is `betweenss / totss * 100` with
`betweenss = totss - tot_withinss`; otherwise it is the model inertia. -/
def ssqFor (F : Type) [LinearOrderedField F] {n m : ℕ} (sq : F → F)
    (data : Fin n → Fin m → F) (fit : FitResult F m) (varianceNorm : Bool) : F :=
  if varianceNorm then
    (totss F sq data - totWithinss F sq data fit.centers) / totss F sq data * 100
  else
    fit.inertia

/-- Embeds the source function `calculate_ssq(data, ks, variance_norm)` from
the notebook.  The k-means fit for each `k` is the external clustering
oracle, passed in as `oracle`; `sq` is the floating-point square root. -/
def calculate_ssq (F : Type) [LinearOrderedField F] {n m : ℕ} (sq : F → F)
    (data : Fin n → Fin m → F) (oracle : ℕ → FitResult F m) (ks : List ℕ)
    (varianceNorm : Bool) : List F :=
  ks.map (fun k => ssqFor F sq data (oracle k) varianceNorm)

/-- Modelled from the spec: the seeded random source of the
`ReferenceDistributionGenerator` (absent from the repository material),
realised as a 64-bit linear congruential generator step. -/
def lcgNext (s : ℕ) : ℕ :=
  (6364136223846793005 * s + 1442695040888963407) % 2 ^ 64

/-- State of the generator after `t` steps from `seed`. -/
def lcgIter (seed : ℕ) : ℕ → ℕ
  | 0 => seed % 2 ^ 64
  | t + 1 => lcgNext (lcgIter seed t)

/-- The `t`-th uniform draw from `[0,1)` of the seeded source. -/
def lcgFrac (seed t : ℕ) : ℚ :=
  (lcgIter seed t : ℚ) / 2 ^ 64

/-- Minimum of feature `t` over the real data. -/
def featMin (F : Type) [LinearOrderedField F] {n m : ℕ}
    (x : Fin n → Fin m → F) (t : Fin m) : F :=
  listMin F ((List.finRange n).map (fun i => x i t))

/-- Maximum of feature `t` over the real data. -/
def featMax (F : Type) [LinearOrderedField F] {n m : ℕ}
    (x : Fin n → Fin m → F) (t : Fin m) : F :=
  match (List.finRange n).map (fun i => x i t) with
  | [] => 0
  | v :: vs => vs.foldl max v

/-- Modelled from the spec: the `ReferenceDistributionGenerator` (absent
from the repository material).  Replicate `b` has the same `N × m` shape as
the real data and each feature is drawn uniformly from that feature's
observed `[min, max]` range, using the seeded source deterministically. -/
def replicateGen (F : Type) [LinearOrderedField F] {n m : ℕ}
    (x : Fin n → Fin m → F) (seed b : ℕ) : Fin n → Fin m → F :=
  fun i t =>
    featMin F x t +
      ((lcgFrac seed (b * (n * m) + i.val * m + t.val + 1) : ℚ) : F) *
        (featMax F x t - featMin F x t)

/-- One gap-statistic record: the requested `k`, the gap value and the
standard error. -/
structure GapRecord (F : Type) where
  k : ℕ
  gap : F
  err : F
  deriving DecidableEq

/-- Modelled from the spec: the error taxonomy of the estimator (absent
from the repository material). -/
inductive GapError (F : Type) where
  | invalidInput : GapError F
  | degenerateDispersion (k : ℕ) : GapError F
  | noElbowFound (records : List (GapRecord F)) : GapError F
  deriving DecidableEq

/-- The transcendental functions the estimator consumes: the natural
logarithm and the square root (instantiated with `Real.log`, `Real.sqrt`;
an arbitrary pair at `ℚ` keeps the pipeline executable). -/
structure GapParams (F : Type) where
  log : F → F
  sqrt : F → F

/-- The log-dispersions of the `B` reference replicates at a given `k`. -/
def logReps (F : Type) [LinearOrderedField F] {n m : ℕ} (P : GapParams F)
    (x : Fin n → Fin m → F) (oracle : ℕ → (Fin n → Fin m → F) → Fin n → ℕ)
    (seed B k : ℕ) : List F :=
  (List.range B).map (fun b =>
    P.log (dispersion F k (replicateGen F x seed b) (oracle k (replicateGen F x seed b))))

/-- Modelled from the spec: one `GapRecord` of the estimator (absent from
the repository material): `gap_k = mean_b(logWkb) - logWk`, `sd_k` the
population standard deviation of the `logWkb`, and
`err_k = sd_k * sqrt(1 + 1/B)`. -/
def mkRecord (F : Type) [LinearOrderedField F] {n m : ℕ} (P : GapParams F)
    (x : Fin n → Fin m → F) (oracle : ℕ → (Fin n → Fin m → F) → Fin n → ℕ)
    (seed B k : ℕ) : GapRecord F :=
  let logs := logReps F P x oracle seed B k
  let logW := P.log (dispersion F k x (oracle k x))
  let sd := P.sqrt ((logs.map (fun v => (v - listMean F logs) ^ 2)).sum / (B : F))
  ⟨k, listMean F logs - logW, sd * P.sqrt (1 + 1 / (B : F))⟩

/-- The full record sequence, one per requested `k`, in request order. -/
def gapRecords (F : Type) [LinearOrderedField F] {n m : ℕ} (P : GapParams F)
    (x : Fin n → Fin m → F) (oracle : ℕ → (Fin n → Fin m → F) → Fin n → ℕ)
    (seed B : ℕ) (ks : List ℕ) : List (GapRecord F) :=
  ks.map (mkRecord F P x oracle seed B)

/-- Modelled from the spec: the degeneracy scan — the first requested `k`
at which the real data or some reference replicate has dispersion exactly
zero, whose logarithm would be undefined. -/
def firstDegenerate (F : Type) [LinearOrderedField F] {n m : ℕ}
    (x : Fin n → Fin m → F) (oracle : ℕ → (Fin n → Fin m → F) → Fin n → ℕ)
    (seed B : ℕ) (ks : List ℕ) : Option ℕ :=
  ks.find? (fun k =>
    decide (dispersion F k x (oracle k x) = 0) ||
      (List.range B).any (fun b =>
        decide (dispersion F k (replicateGen F x seed b) (oracle k (replicateGen F x seed b)) = 0)))

/-- Modelled from the spec: the selection rule — the first (hence, for an
ascending range, the smallest-`k`) record, excluding the last, whose gap
satisfies `gap_k ≥ gap_{k+1} - err_{k+1}`. -/
def selectK (F : Type) [LinearOrderedField F] (rs : List (GapRecord F)) : Option ℕ :=
  ((rs.zip rs.tail).find? (fun pr => decide (pr.2.gap - pr.2.err ≤ pr.1.gap))).map
    (fun pr => pr.1.k)

/-- Modelled from the spec: the public operation
`estimate(pointSet, kRange, replicateCount)` of the Gap Statistic Estimator
(absent from the repository material).  Fails with `InvalidInputError` on an
empty shape, with `DegenerateDispersionError` when a dispersion of exactly
zero is encountered, and with `NoElbowFoundError` (carrying the full record
sequence) when no first difference is non-negative; otherwise returns the
records and the recommended `k`. -/
def estimate (F : Type) [LinearOrderedField F] {n m : ℕ} (P : GapParams F)
    (x : Fin n → Fin m → F) (oracle : ℕ → (Fin n → Fin m → F) → Fin n → ℕ)
    (ks : List ℕ) (B seed : ℕ) : Except (GapError F) (List (GapRecord F) × ℕ) :=
  if n = 0 ∨ m = 0 then
    .error .invalidInput
  else
    match firstDegenerate F x oracle seed B ks with
    | some k => .error (.degenerateDispersion k)
    | none =>
        match selectK F (gapRecords F P x oracle seed B ks) with
        | some k => .ok (gapRecords F P x oracle seed B ks, k)
        | none => .error (.noElbowFound (gapRecords F P x oracle seed B ks))

/-- Record at index `i` of a record list, defaulting to a zero record. -/
def recAt (F : Type) [LinearOrderedField F] (rs : List (GapRecord F)) (i : ℕ) :
    GapRecord F :=
  rs.getD i ⟨0, 0, 0⟩

/-- First-difference criterion value at index `i`:
`diff_i = gap_i - (gap_{i+1} - err_{i+1})`. -/
def diffAt (F : Type) [LinearOrderedField F] (rs : List (GapRecord F)) (i : ℕ) : F :=
  (recAt F rs i).gap - ((recAt F rs (i + 1)).gap - (recAt F rs (i + 1)).err)

/-! ## Concrete inputs used by witnesses and the counterexample -/

/-- Two 1-D points `0` and `2`, over `ℝ`. -/
def xPair : Fin 2 → Fin 1 → ℝ := fun i _ => if i = 0 then 0 else 2

/-- Assignment of every point to cluster `0`. -/
def aOne : Fin 2 → ℕ := fun _ => 0

/-- Two 1-D points `0` and `4`, over `ℚ`. -/
def xQ2 : Fin 2 → Fin 1 → ℚ := fun i _ => if i = 0 then 0 else 4

/-- Assignment of each point to its own cluster. -/
def aSelf : Fin 2 → ℕ := fun i => i.val

/-- Identity transcendental parameters over `ℚ`, for executable runs. -/
def PidQ : GapParams ℚ := ⟨fun v => v, fun v => v⟩

/-- Clustering oracle assigning every point to cluster `0`. -/
def oracleZero : ℕ → (Fin 2 → Fin 1 → ℚ) → Fin 2 → ℕ := fun _ _ _ => 0

/-- Three 1-D points `0`, `1`, `5`, over `ℚ`. -/
def x3 : Fin 3 → Fin 1 → ℚ :=
  fun i _ => if i.val = 0 then 0 else if i.val = 1 then 1 else 5

/-- Clustering oracle: one cluster for `k = 1`; `{0, 1}` and `{2}` otherwise. -/
def oracle3 : ℕ → (Fin 3 → Fin 1 → ℚ) → Fin 3 → ℕ :=
  fun k _ i => if k = 1 then 0 else if i.val = 2 then 1 else 0

/-- Two identical 1-D points, over `ℚ`. -/
def xZero : Fin 2 → Fin 1 → ℚ := fun _ _ => 0

/-- Two 1-D points `0` and `2`, over `ℝ`. -/
def xR2 : Fin 2 → Fin 1 → ℝ := fun i _ => if i = 0 then 0 else 2

/-- Clustering oracle over `ℝ` data assigning every point to cluster `0`. -/
def oracleZeroR : ℕ → (Fin 2 → Fin 1 → ℝ) → Fin 2 → ℕ := fun _ _ _ => 0

/-- A fixed fit result with a single centroid at the origin, over `ℚ`. -/
def fitQ : ℕ → FitResult ℚ 1 := fun _ => ⟨[fun _ => 0], 0⟩

/-- A fixed fit result with a single centroid at the origin, over `ℝ`. -/
def fitR : ℕ → FitResult ℝ 1 := fun _ => ⟨[fun _ => 0], 0⟩

/-- A single 1-D point value `3`. -/
def pR : Fin 1 → ℝ := fun _ => 3

/-! ## Helper lemmas -/

theorem sqDist_nonneg {F : Type} [LinearOrderedField F] {m : ℕ} (p q : Fin m → F) :
    0 ≤ sqDist F p q :=
  Finset.sum_nonneg (fun _ _ => sq_nonneg _)

theorem sqDist_comm {F : Type} [LinearOrderedField F] {m : ℕ} (p q : Fin m → F) :
    sqDist F p q = sqDist F q p :=
  Finset.sum_congr rfl (fun _ _ => by ring)

theorem sqDist_self {F : Type} [LinearOrderedField F] {m : ℕ} (p : Fin m → F) :
    sqDist F p p = 0 := by
  simp [sqDist]

theorem sum_sq_pairs {F : Type} [LinearOrderedField F] {ι : Type} (s : Finset ι)
    (f : ι → F) :
    ∑ i ∈ s, ∑ j ∈ s, (f i - f j) ^ 2 =
      2 * (s.card : F) * (∑ i ∈ s, f i ^ 2) - 2 * (∑ i ∈ s, f i) ^ 2 := by
  have h : ∀ i j : ι, (f i - f j) ^ 2 = f i ^ 2 - 2 * (f i * f j) + f j ^ 2 := by
    intro i j; ring
  simp only [h, Finset.sum_add_distrib, Finset.sum_sub_distrib, ← Finset.mul_sum,
    ← Finset.sum_mul, Finset.sum_const, nsmul_eq_mul]
  ring

theorem sum_sq_dev {F : Type} [LinearOrderedField F] {ι : Type} (s : Finset ι)
    (f : ι → F) (hs : s.card ≠ 0) :
    ∑ i ∈ s, (f i - (∑ j ∈ s, f j) / (s.card : F)) ^ 2 =
      (∑ i ∈ s, f i ^ 2) - (∑ i ∈ s, f i) ^ 2 / (s.card : F) := by
  have hc : (s.card : F) ≠ 0 := Nat.cast_ne_zero.mpr hs
  have h : ∀ i : ι, (f i - (∑ j ∈ s, f j) / (s.card : F)) ^ 2 =
      f i ^ 2 - 2 * (f i * ((∑ j ∈ s, f j) / (s.card : F))) +
        ((∑ j ∈ s, f j) / (s.card : F)) ^ 2 := by
    intro i; ring
  simp only [h, Finset.sum_add_distrib, Finset.sum_sub_distrib, ← Finset.mul_sum,
    ← Finset.sum_mul, Finset.sum_const, nsmul_eq_mul]
  field_simp
  ring

theorem cluster_identity {F : Type} [LinearOrderedField F] {n m : ℕ}
    (x : Fin n → Fin m → F) (s : Finset (Fin n)) :
    pairSum F x s / (2 * (s.card : F)) =
      ∑ i ∈ s, sqDist F (x i) (centroid F x s) := by
  rcases Nat.eq_zero_or_pos s.card with hc | hc
  · rw [Finset.card_eq_zero] at hc
    subst hc
    simp [pairSum]
  · have hs : s.card ≠ 0 := hc.ne'
    have hcF : (s.card : F) ≠ 0 := Nat.cast_ne_zero.mpr hs
    have hL : pairSum F x s =
        ∑ t : Fin m, (2 * (s.card : F) * (∑ i ∈ s, x i t ^ 2) - 2 * (∑ i ∈ s, x i t) ^ 2) := by
      unfold pairSum sqDist
      calc ∑ i ∈ s, ∑ j ∈ s, ∑ t : Fin m, (x i t - x j t) ^ 2
          = ∑ i ∈ s, ∑ t : Fin m, ∑ j ∈ s, (x i t - x j t) ^ 2 :=
            Finset.sum_congr rfl (fun i _ => Finset.sum_comm)
        _ = ∑ t : Fin m, ∑ i ∈ s, ∑ j ∈ s, (x i t - x j t) ^ 2 := Finset.sum_comm
        _ = ∑ t : Fin m, (2 * (s.card : F) * (∑ i ∈ s, x i t ^ 2) - 2 * (∑ i ∈ s, x i t) ^ 2) :=
            Finset.sum_congr rfl (fun t _ => sum_sq_pairs s (fun i => x i t))
    have hR : ∑ i ∈ s, sqDist F (x i) (centroid F x s) =
        ∑ t : Fin m, ((∑ i ∈ s, x i t ^ 2) - (∑ i ∈ s, x i t) ^ 2 / (s.card : F)) := by
      unfold sqDist centroid
      rw [Finset.sum_comm]
      exact Finset.sum_congr rfl (fun t _ => sum_sq_dev s (fun i => x i t) hs)
    rw [hL, hR, Finset.sum_div]
    refine Finset.sum_congr rfl (fun t _ => ?_)
    field_simp
    ring

theorem sum_pairs_lt {F : Type} [LinearOrderedField F] {n : ℕ} (g : Fin n → Fin n → F)
    (hsym : ∀ i j, g i j = g j i) (hdiag : ∀ i, g i i = 0) :
    ∑ i, ∑ j ∈ Finset.univ.filter (fun j => i < j), g i j =
      (∑ i, ∑ j, g i j) / 2 := by
  have key : ∀ i j : Fin n, g i j =
      (if i < j then g i j else 0) + (if j < i then g i j else 0) := by
    intro i j
    rcases lt_trichotomy i j with h | h | h
    · simp [h, not_lt_of_gt h]
    · subst h; simp [lt_irrefl, hdiag]
    · simp [h, not_lt_of_gt h]
  have hfil : (∑ i, ∑ j ∈ Finset.univ.filter (fun j => i < j), g i j) =
      ∑ i : Fin n, ∑ j : Fin n, if i < j then g i j else 0 :=
    Finset.sum_congr rfl (fun i _ => Finset.sum_filter _ _)
  have hswap : (∑ i : Fin n, ∑ j : Fin n, if j < i then g i j else 0) =
      ∑ i : Fin n, ∑ j : Fin n, if i < j then g i j else 0 := by
    rw [Finset.sum_comm]
    refine Finset.sum_congr rfl (fun a _ => Finset.sum_congr rfl (fun b _ => ?_))
    by_cases h : a < b <;> simp [h, hsym a b]
  have htot : (∑ i : Fin n, ∑ j : Fin n, g i j) =
      (∑ i : Fin n, ∑ j : Fin n, if i < j then g i j else 0) +
        (∑ i : Fin n, ∑ j : Fin n, if j < i then g i j else 0) := by
    rw [← Finset.sum_add_distrib]
    refine Finset.sum_congr rfl (fun i _ => ?_)
    rw [← Finset.sum_add_distrib]
    exact Finset.sum_congr rfl (fun j _ => key i j)
  rw [hfil]
  rw [hswap] at htot
  linarith [htot]

theorem totss_eq_ss {n m : ℕ} (data : Fin n → Fin m → ℝ) :
    totss ℝ Real.sqrt data = ∑ i, sqDist ℝ (data i) (overallMean ℝ data) := by
  unfold totss
  have h1 : (∑ i, ∑ j ∈ Finset.univ.filter (fun j => i < j),
        Real.sqrt (sqDist ℝ (data i) (data j)) ^ 2)
      = ∑ i, ∑ j ∈ Finset.univ.filter (fun j => i < j), sqDist ℝ (data i) (data j) :=
    Finset.sum_congr rfl (fun i _ => Finset.sum_congr rfl (fun j _ =>
      Real.sq_sqrt (sqDist_nonneg _ _)))
  rw [h1, sum_pairs_lt (fun i j => sqDist ℝ (data i) (data j))
    (fun i j => sqDist_comm _ _) (fun i => sqDist_self _)]
  have h2 := cluster_identity data (Finset.univ : Finset (Fin n))
  have hcard : ((Finset.univ : Finset (Fin n)).card : ℝ) = (n : ℝ) := by
    simp
  have hpair : pairSum ℝ data Finset.univ =
      ∑ i : Fin n, ∑ j : Fin n, sqDist ℝ (data i) (data j) := rfl
  have hcent : centroid ℝ data (Finset.univ : Finset (Fin n)) = overallMean ℝ data := by
    funext t
    simp [centroid, overallMean]
  rw [hpair, hcard, hcent] at h2
  rw [← h2, div_div]

theorem find?_first {α : Type} (p : α → Bool) :
    ∀ (l : List α) (a : α), l.find? p = some a →
      ∃ i, ∃ hi : i < l.length, l.get ⟨i, hi⟩ = a ∧ p a = true ∧
        ∀ j, ∀ hj : j < l.length, j < i → p (l.get ⟨j, hj⟩) = false := by
  intro l
  induction l with
  | nil => intro a h; simp [List.find?] at h
  | cons x xs ih =>
      intro a h
      rw [List.find?] at h
      by_cases hp : p x = true
      · rw [hp] at h
        simp at h
        refine ⟨0, by simp, by simpa using h, by rw [← h]; exact hp, ?_⟩
        intro j hj hji
        omega
      · rw [Bool.not_eq_true] at hp
        rw [hp] at h
        simp at h
        obtain ⟨i, hi, hget, hpa, hprev⟩ := ih a h
        refine ⟨i + 1, by simpa using Nat.succ_lt_succ hi, by simpa using hget, hpa, ?_⟩
        intro j hj hji
        match j with
        | 0 => simpa using hp
        | j' + 1 =>
            have hj' : j' < xs.length := by simpa using hj
            have := hprev j' hj' (by omega)
            simpa using this

theorem pairSum_nonneg {F : Type} [LinearOrderedField F] {n m : ℕ}
    (x : Fin n → Fin m → F) (s : Finset (Fin n)) : 0 ≤ pairSum F x s :=
  Finset.sum_nonneg (fun i _ => Finset.sum_nonneg (fun j _ => sqDist_nonneg _ _))

theorem list_range_map_sum {F : Type} [LinearOrderedField F] (B : ℕ) (f : ℕ → F) :
    ((List.range B).map f).sum = ∑ b ∈ Finset.range B, f b := rfl

theorem calculate_ssq_getD (F : Type) [LinearOrderedField F] {n m : ℕ} (sq : F → F)
    (data : Fin n → Fin m → F) (oracleS : ℕ → FitResult F m) (vn : Bool)
    (ks : List ℕ) (i : ℕ) (hi : i < ks.length) :
    (calculate_ssq F sq data oracleS ks vn).getD i 0 =
      ssqFor F sq data (oracleS (ks.get ⟨i, hi⟩)) vn := by
  have hlen : i < (calculate_ssq F sq data oracleS ks vn).length := by
    simpa [calculate_ssq] using hi
  rw [List.getD_eq_getElem _ _ hlen]
  simp [calculate_ssq]

theorem gapRecords_recAt (F : Type) [LinearOrderedField F] {n m : ℕ}
    (P : GapParams F) (x : Fin n → Fin m → F)
    (oracle : ℕ → (Fin n → Fin m → F) → Fin n → ℕ) (seed B : ℕ)
    (ks : List ℕ) (i : ℕ) (hi : i < ks.length) :
    recAt F (gapRecords F P x oracle seed B ks) i =
      mkRecord F P x oracle seed B (ks.get ⟨i, hi⟩) := by
  have hlen : i < (gapRecords F P x oracle seed B ks).length := by
    simpa [gapRecords] using hi
  rw [recAt, List.getD_eq_getElem _ _ hlen]
  simp [gapRecords]

theorem zip_tail_get (F : Type) [LinearOrderedField F] (rs : List (GapRecord F))
    (i : ℕ) (hi : i < (rs.zip rs.tail).length) (hi2 : i + 1 < rs.length) :
    (rs.zip rs.tail).get ⟨i, hi⟩ = (recAt F rs i, recAt F rs (i + 1)) := by
  rw [List.get_eq_getElem, List.getElem_zip, List.getElem_tail, recAt, recAt,
    List.getD_eq_getElem _ _ (show i < rs.length by omega),
    List.getD_eq_getElem _ _ hi2]

theorem selectK_spec (F : Type) [LinearOrderedField F] (rs : List (GapRecord F))
    (kR : ℕ) (hsel : selectK F rs = some kR) :
    ∃ i, i + 1 < rs.length ∧ kR = (recAt F rs i).k ∧
      0 ≤ diffAt F rs i ∧ ∀ j, j < i → diffAt F rs j < 0 := by
  unfold selectK at hsel
  obtain ⟨pr, hfind, hk⟩ := Option.map_eq_some'.mp hsel
  obtain ⟨i, hi, hget, hp, hprev⟩ := find?_first _ _ _ hfind
  have hzlen : (rs.zip rs.tail).length = rs.length ⊓ (rs.length - 1) := by
    rw [List.length_zip, List.length_tail]
  have hi2 : i + 1 < rs.length := by
    rw [hzlen] at hi
    have := lt_min_iff.mp hi
    omega
  have hgeti := zip_tail_get F rs i hi hi2
  refine ⟨i, hi2, ?_, ?_, ?_⟩
  · rw [← hk, ← hget, hgeti]
  · rw [← hget, hgeti] at hp
    have hle := of_decide_eq_true hp
    rw [diffAt]
    simp only at hle ⊢
    linarith
  · intro j hj
    have hjz : j < (rs.zip rs.tail).length := by omega
    have hj2 : j + 1 < rs.length := by
      rw [hzlen] at hjz
      have := lt_min_iff.mp hjz
      omega
    have hgetj := zip_tail_get F rs j hjz hj2
    have hpf := hprev j hjz hj
    rw [hgetj] at hpf
    have hnle := of_decide_eq_false hpf
    rw [diffAt]
    simp only at hnle ⊢
    push_neg at hnle
    linarith

/-! ## Claim theorems -/

/-- Claim C1: for an ascending kRange of at least two values, whenever the
selection succeeds, the recommended k returned by `estimate` is the record at
the smallest index i (scanning ascending, the last k excluded) whose first
difference `gap_i - (gap_{i+1} - err_{i+1})` is non-negative, and every
earlier index has a strictly negative difference. -/
theorem recommended_k_smallest (F : Type) [LinearOrderedField F] {n m : ℕ}
    (P : GapParams F) (x : Fin n → Fin m → F)
    (oracle : ℕ → (Fin n → Fin m → F) → Fin n → ℕ) (ks : List ℕ) (B seed : ℕ)
    (hsorted : ks.Sorted (· < ·)) (hlen : 2 ≤ ks.length) (kR : ℕ)
    (hsel : selectK F (gapRecords F P x oracle seed B ks) = some kR) :
    (0 < n → 0 < m → firstDegenerate F x oracle seed B ks = none →
        estimate F P x oracle ks B seed =
          Except.ok (gapRecords F P x oracle seed B ks, kR)) ∧
      ∃ i, i + 1 < (gapRecords F P x oracle seed B ks).length ∧
        kR = (recAt F (gapRecords F P x oracle seed B ks) i).k ∧
        kR = ks.getD i 0 ∧
        0 ≤ diffAt F (gapRecords F P x oracle seed B ks) i ∧
        ∀ j, j < i → diffAt F (gapRecords F P x oracle seed B ks) j < 0 := by
  constructor
  · intro hn hm hnone
    unfold estimate
    rw [if_neg (by omega)]
    rw [hnone]
    rw [hsel]
  · obtain ⟨i, hi2, hk, hd, hprev⟩ := selectK_spec F _ kR hsel
    have hiks : i < ks.length := by
      have : (gapRecords F P x oracle seed B ks).length = ks.length :=
        List.length_map _ _
      omega
    refine ⟨i, hi2, hk, ?_, hd, hprev⟩
    rw [hk, gapRecords_recAt F P x oracle seed B ks i hiks, mkRecord]
    rw [List.getD_eq_getElem _ _ hiks, List.get_eq_getElem]

/-- Claim C1 witness: a concrete run in which the first difference at the
first index is non-negative, so `estimate` returns the records and
recommends the first k. -/
theorem recommended_k_smallest_witness :
    estimate ℚ PidQ xQ2 oracleZero [1, 2] 0 7 =
      Except.ok (gapRecords ℚ PidQ xQ2 oracleZero 7 0 [1, 2], 1) := by
  have hrs : gapRecords ℚ PidQ xQ2 oracleZero 7 0 [1, 2] =
      [⟨1, -8, 0⟩, ⟨2, -8, 0⟩] := by
    norm_num [gapRecords, mkRecord, logReps, listMean, PidQ, dispersion, pairSum,
      cluster, Finset.sum_filter, Finset.card_filter, Fin.sum_univ_two,
      Finset.sum_range_succ, Finset.sum_range_zero, sqDist, Fin.sum_univ_one,
      xQ2, oracleZero]
  have hsel : selectK ℚ (gapRecords ℚ PidQ xQ2 oracleZero 7 0 [1, 2]) = some 1 := by
    rw [hrs]
    norm_num [selectK, List.zip_cons_cons, List.zip_nil_right, List.find?]
  have hnone : firstDegenerate ℚ xQ2 oracleZero 7 0 [1, 2] = none := by
    norm_num [firstDegenerate, List.find?, dispersion, pairSum, cluster,
      Finset.sum_filter, Finset.card_filter, Fin.sum_univ_two,
      Finset.sum_range_succ, Finset.sum_range_zero, sqDist, Fin.sum_univ_one,
      xQ2, oracleZero, List.range_zero, List.any_nil]
  exact (recommended_k_smallest ℚ PidQ xQ2 oracleZero [1, 2] 0 7 (by decide)
    (by norm_num) 1 hsel).1 (by norm_num) (by norm_num) hnone

/-- Claim C2: the record produced for the i-th requested k has
`gap_k = mean_b(ln Wkb) - ln Wk` over the B replicates and
`err_k = sd_k * sqrt(1 + 1/B)` with `sd_k` the population standard
deviation of the `ln Wkb`. -/
theorem gapRecord_formulas {n m : ℕ} (x : Fin n → Fin m → ℝ)
    (oracle : ℕ → (Fin n → Fin m → ℝ) → Fin n → ℕ) (seed B : ℕ) (ks : List ℕ)
    (i : ℕ) (hi : i < ks.length) :
    (recAt ℝ (gapRecords ℝ ⟨fun v => Real.log v, fun v => Real.sqrt v⟩ x oracle seed B ks) i).gap
        = (∑ b ∈ Finset.range B, Real.log (dispersion ℝ (ks.get ⟨i, hi⟩)
              (replicateGen ℝ x seed b)
              (oracle (ks.get ⟨i, hi⟩) (replicateGen ℝ x seed b)))) / (B : ℝ)
          - Real.log (dispersion ℝ (ks.get ⟨i, hi⟩) x (oracle (ks.get ⟨i, hi⟩) x)) ∧
      (recAt ℝ (gapRecords ℝ ⟨fun v => Real.log v, fun v => Real.sqrt v⟩ x oracle seed B ks) i).err
        = Real.sqrt ((∑ b ∈ Finset.range B,
              (Real.log (dispersion ℝ (ks.get ⟨i, hi⟩) (replicateGen ℝ x seed b)
                  (oracle (ks.get ⟨i, hi⟩) (replicateGen ℝ x seed b)))
                - (∑ b ∈ Finset.range B, Real.log (dispersion ℝ (ks.get ⟨i, hi⟩)
                      (replicateGen ℝ x seed b)
                      (oracle (ks.get ⟨i, hi⟩) (replicateGen ℝ x seed b)))) / (B : ℝ)) ^ 2)
            / (B : ℝ))
          * Real.sqrt (1 + 1 / (B : ℝ)) := by
  have hlen : i < (gapRecords ℝ ⟨fun v => Real.log v, fun v => Real.sqrt v⟩ x oracle seed B ks).length := by
    simpa [gapRecords] using hi
  have hget : recAt ℝ (gapRecords ℝ ⟨fun v => Real.log v, fun v => Real.sqrt v⟩ x oracle seed B ks) i
      = mkRecord ℝ ⟨fun v => Real.log v, fun v => Real.sqrt v⟩ x oracle seed B (ks.get ⟨i, hi⟩) := by
    rw [recAt, List.getD_eq_getElem _ _ hlen]
    simp [gapRecords]
  rw [hget]
  have hmean : listMean ℝ (logReps ℝ ⟨fun v => Real.log v, fun v => Real.sqrt v⟩ x oracle seed B (ks.get ⟨i, hi⟩))
      = (∑ b ∈ Finset.range B, Real.log (dispersion ℝ (ks.get ⟨i, hi⟩)
          (replicateGen ℝ x seed b)
          (oracle (ks.get ⟨i, hi⟩) (replicateGen ℝ x seed b)))) / (B : ℝ) := by
    rw [listMean, logReps, list_range_map_sum]
    simp
  constructor
  · rw [mkRecord]
    rw [hmean]
  · rw [mkRecord]
    simp only []
    rw [hmean, logReps, List.map_map, list_range_map_sum]
    simp [Function.comp, List.length_map, List.length_range, logReps, hmean]

/-- Claim C2 witness: at a concrete input with no replicates the gap of the
first record evaluates to minus the log of the real-data dispersion. -/
theorem gapRecord_formulas_witness :
    (recAt ℝ (gapRecords ℝ ⟨fun v => Real.log v, fun v => Real.sqrt v⟩
        xR2 oracleZeroR 7 0 [1]) 0).gap
      = -Real.log (dispersion ℝ 1 xR2 (oracleZeroR 1 xR2)) := by
  have h := (gapRecord_formulas xR2 oracleZeroR 7 0 [1] 0 (by norm_num)).1
  simpa using h

/-- Claim C3 counterexample: at two 1-D points `0`, `2` in one cluster the
pairwise dispersion is `2`, while twice the sum of squared distances to the
centroid is `4`: the claimed factor two fails. -/
theorem dispersion_ne_two_withinSS :
    dispersion ℝ 1 xPair aOne ≠ 2 * withinSS ℝ 1 xPair aOne := by
  have hcl : cluster aOne 0 = (Finset.univ : Finset (Fin 2)) := by
    simp [cluster, aOne]
  simp [dispersion, withinSS, hcl, pairSum, sqDist, centroid, xPair, Fin.sum_univ_two]
  norm_num

/-- Claim C3 (amended): the pairwise dispersion — sum over clusters of the
sum of squared distances over all ordered pairs divided by (2 × cluster
size) — equals exactly (not twice) the pooled within-cluster sum of squared
distances to the cluster centroids. -/
theorem dispersion_eq_withinSS (F : Type) [LinearOrderedField F] {n m : ℕ} (k : ℕ)
    (x : Fin n → Fin m → F) (a : Fin n → ℕ) :
    dispersion F k x a = withinSS F k x a := by
  unfold dispersion withinSS
  exact Finset.sum_congr rfl (fun c _ => cluster_identity x (cluster a c))

/-- Claim C4: the dispersion is always non-negative, a cluster of size
exactly one contributes exactly zero, and when every cluster has exactly
one member the dispersion is exactly zero. -/
theorem dispersion_nonneg_singletons (F : Type) [LinearOrderedField F] {n m : ℕ}
    (k : ℕ) (x : Fin n → Fin m → F) (a : Fin n → ℕ) :
    0 ≤ dispersion F k x a ∧
      (∀ c, (cluster a c).card = 1 →
        pairSum F x (cluster a c) / (2 * ((cluster a c).card : F)) = 0) ∧
      ((∀ c ∈ Finset.range k, (cluster a c).card = 1) → dispersion F k x a = 0) := by
  have hsing : ∀ c, (cluster a c).card = 1 →
      pairSum F x (cluster a c) / (2 * ((cluster a c).card : F)) = 0 := by
    intro c hc
    obtain ⟨i, hi⟩ := Finset.card_eq_one.mp hc
    rw [hi] at hc ⊢
    simp [pairSum, sqDist_self]
  refine ⟨?_, hsing, ?_⟩
  · refine Finset.sum_nonneg (fun c _ => ?_)
    refine div_nonneg (pairSum_nonneg _ _) ?_
    positivity
  · intro hall
    exact Finset.sum_eq_zero (fun c hc => hsing c (hall c hc))

/-- Claim C4 witness: with each of two points in its own cluster the
dispersion is non-negative and exactly zero. -/
theorem dispersion_nonneg_singletons_witness :
    0 ≤ dispersion ℚ 2 xQ2 aSelf ∧ dispersion ℚ 2 xQ2 aSelf = 0 :=
  ⟨(dispersion_nonneg_singletons ℚ 2 xQ2 aSelf).1,
    (dispersion_nonneg_singletons ℚ 2 xQ2 aSelf).2.2 (by decide)⟩

/-- Claim C5: whenever some requested k has a real-data or replicate
dispersion of exactly zero, `estimate` fails with
`DegenerateDispersionError`; and whenever `estimate` succeeds, every
dispersion whose logarithm it consumed was non-zero, so no undefined
logarithm enters the gap values. -/
theorem degenerate_dispersion_handled (F : Type) [LinearOrderedField F] {n m : ℕ}
    (P : GapParams F) (x : Fin n → Fin m → F)
    (oracle : ℕ → (Fin n → Fin m → F) → Fin n → ℕ) (ks : List ℕ) (B seed : ℕ)
    (hn : 0 < n) (hm : 0 < m) :
    ((∃ k ∈ ks, dispersion F k x (oracle k x) = 0 ∨
        ∃ b < B, dispersion F k (replicateGen F x seed b)
          (oracle k (replicateGen F x seed b)) = 0) →
      ∃ kbad, estimate F P x oracle ks B seed =
        Except.error (GapError.degenerateDispersion kbad)) ∧
      (∀ rs kR, estimate F P x oracle ks B seed = Except.ok (rs, kR) →
        ∀ k ∈ ks, dispersion F k x (oracle k x) ≠ 0 ∧
          ∀ b < B, dispersion F k (replicateGen F x seed b)
            (oracle k (replicateGen F x seed b)) ≠ 0) := by
  constructor
  · intro hdeg
    have hsome : (firstDegenerate F x oracle seed B ks).isSome = true := by
      unfold firstDegenerate
      rw [List.find?_isSome]
      obtain ⟨k, hkmem, hk⟩ := hdeg
      refine ⟨k, hkmem, ?_⟩
      rw [Bool.or_eq_true, decide_eq_true_eq, List.any_eq_true]
      rcases hk with h | ⟨b, hb, h⟩
      · exact Or.inl h
      · exact Or.inr ⟨b, List.mem_range.mpr hb, decide_eq_true h⟩
    obtain ⟨kbad, hkbad⟩ := Option.isSome_iff_exists.mp hsome
    refine ⟨kbad, ?_⟩
    unfold estimate
    rw [if_neg (by omega)]
    rw [hkbad]
  · intro rs kR hok
    have hnone : firstDegenerate F x oracle seed B ks = none := by
      by_contra hne
      obtain ⟨kbad, hkbad⟩ := Option.ne_none_iff_exists'.mp hne
      unfold estimate at hok
      rw [if_neg (by omega)] at hok
      rw [hkbad] at hok
      exact absurd hok (by simp)
    unfold firstDegenerate at hnone
    rw [List.find?_eq_none] at hnone
    intro k hkmem
    have hfalse := hnone k hkmem
    rw [Bool.not_eq_true, Bool.or_eq_false_iff] at hfalse
    obtain ⟨h1, h2⟩ := hfalse
    constructor
    · intro h
      rw [decide_eq_true h] at h1
      simp at h1
    · intro b hb h
      have : (List.range B).any (fun b =>
          decide (dispersion F k (replicateGen F x seed b)
            (oracle k (replicateGen F x seed b)) = 0)) = true := by
        rw [List.any_eq_true]
        exact ⟨b, List.mem_range.mpr hb, decide_eq_true h⟩
      rw [this] at h2
      exact absurd h2 (by simp)

/-- Claim C5 witness: on two identical points the k = 1 dispersion is zero
and `estimate` reports the degenerate-dispersion error. -/
theorem degenerate_dispersion_handled_witness :
    ∃ kbad, estimate ℚ PidQ xZero oracleZero [1] 0 7 =
      Except.error (GapError.degenerateDispersion kbad) := by
  have hd : dispersion ℚ 1 xZero (oracleZero 1 xZero) = 0 := by
    norm_num [dispersion, pairSum, cluster, Finset.sum_filter, Finset.card_filter,
      Fin.sum_univ_two, Finset.sum_range_succ, Finset.sum_range_zero, sqDist,
      Fin.sum_univ_one, xZero, oracleZero]
  exact (degenerate_dispersion_handled ℚ PidQ xZero oracleZero [1] 0 7
    (by norm_num) (by norm_num)).1 ⟨1, by norm_num, Or.inl hd⟩

/-- Claim C6: when every first difference is strictly negative, `estimate`
fails with `NoElbowFoundError` carrying the full record sequence, rather
than returning any recommended k. -/
theorem no_elbow_reported (F : Type) [LinearOrderedField F] {n m : ℕ}
    (P : GapParams F) (x : Fin n → Fin m → F)
    (oracle : ℕ → (Fin n → Fin m → F) → Fin n → ℕ) (ks : List ℕ) (B seed : ℕ)
    (hn : 0 < n) (hm : 0 < m)
    (hnodeg : firstDegenerate F x oracle seed B ks = none)
    (hall : ∀ j, j + 1 < (gapRecords F P x oracle seed B ks).length →
        diffAt F (gapRecords F P x oracle seed B ks) j < 0) :
    estimate F P x oracle ks B seed =
      Except.error (GapError.noElbowFound (gapRecords F P x oracle seed B ks)) := by
  have hnone : selectK F (gapRecords F P x oracle seed B ks) = none := by
    unfold selectK
    rw [Option.map_eq_none']
    rw [List.find?_eq_none]
    intro pr hmem
    set rs := gapRecords F P x oracle seed B ks with hrs
    obtain ⟨i, hi, hpr⟩ := List.mem_iff_getElem.mp hmem
    have hzlen : (rs.zip rs.tail).length = rs.length ⊓ (rs.length - 1) := by
      rw [List.length_zip, List.length_tail]
    have hi2 : i + 1 < rs.length := by
      rw [hzlen] at hi
      have := lt_min_iff.mp hi
      omega
    have hget : (rs.zip rs.tail).get ⟨i, hi⟩ = (recAt F rs i, recAt F rs (i + 1)) :=
      zip_tail_get F rs i hi hi2
    rw [List.get_eq_getElem] at hget
    rw [hpr] at hget
    have hneg := hall i hi2
    rw [diffAt] at hneg
    rw [hget]
    simp only [decide_eq_true_eq]
    intro hle
    linarith
  unfold estimate
  rw [if_neg (by omega)]
  rw [hnodeg]
  rw [hnone]

/-- Claim C6 witness: three concrete points whose single first difference is
negative make `estimate` fail with `NoElbowFoundError` carrying the
records. -/
theorem no_elbow_reported_witness :
    estimate ℚ PidQ x3 oracle3 [1, 2] 0 7 =
      Except.error (GapError.noElbowFound (gapRecords ℚ PidQ x3 oracle3 7 0 [1, 2])) := by
  have hd1 : dispersion ℚ 1 x3 (oracle3 1 x3) = 14 := by
    have h0 : cluster (oracle3 1 x3) 0 = {0, 1, 2} := by decide
    have hc : (({0, 1, 2} : Finset (Fin 3))).card = 3 := by decide
    rw [dispersion, Finset.sum_range_one, h0, pairSum, hc]
    simp only [Finset.sum_insert (show (0 : Fin 3) ∉ ({1, 2} : Finset (Fin 3)) by decide),
      Finset.sum_insert (show (1 : Fin 3) ∉ ({2} : Finset (Fin 3)) by decide),
      Finset.sum_singleton]
    norm_num [sqDist, Fin.sum_univ_one, x3]
  have hd2 : dispersion ℚ 2 x3 (oracle3 2 x3) = 1 / 2 := by
    have h0 : cluster (oracle3 2 x3) 0 = {0, 1} := by decide
    have h1 : cluster (oracle3 2 x3) 1 = {2} := by decide
    have hc0 : (({0, 1} : Finset (Fin 3))).card = 2 := by decide
    have hc1 : (({2} : Finset (Fin 3))).card = 1 := by decide
    rw [dispersion, Finset.sum_range_succ, Finset.sum_range_one, h0, h1, pairSum,
      pairSum, hc0, hc1]
    simp only [Finset.sum_insert (show (0 : Fin 3) ∉ ({1} : Finset (Fin 3)) by decide),
      Finset.sum_singleton]
    norm_num [sqDist, Fin.sum_univ_one, x3]
  have hrs : gapRecords ℚ PidQ x3 oracle3 7 0 [1, 2] =
      [⟨1, -14, 0⟩, ⟨2, -(1 / 2), 0⟩] := by
    norm_num [gapRecords, mkRecord, logReps, listMean, PidQ, hd1, hd2]
  have hnodeg : firstDegenerate ℚ x3 oracle3 7 0 [1, 2] = none := by
    norm_num [firstDegenerate, List.find?, hd1, hd2, List.range_zero, List.any_nil]
  have hall : ∀ j, j + 1 < (gapRecords ℚ PidQ x3 oracle3 7 0 [1, 2]).length →
      diffAt ℚ (gapRecords ℚ PidQ x3 oracle3 7 0 [1, 2]) j < 0 := by
    intro j hj
    rw [hrs] at hj ⊢
    have hj0 : j = 0 := by
      simp only [List.length_cons, List.length_nil] at hj
      omega
    subst hj0
    norm_num [diffAt, recAt, List.getD]
  exact no_elbow_reported ℚ PidQ x3 oracle3 [1, 2] 0 7 (by norm_num) (by norm_num)
    hnodeg hall

/-- Claim C7: `calculate_ssq` returns exactly one entry per requested k, the
i-th entry being the metric for `ks[i]`; likewise the estimator produces one
record per k, in request order, and a successful `estimate` returns exactly
that record sequence. -/
theorem one_entry_per_k (F : Type) [LinearOrderedField F] {n m : ℕ} (sq : F → F)
    (data : Fin n → Fin m → F) (oracleS : ℕ → FitResult F m) (vn : Bool)
    (P : GapParams F) (x : Fin n → Fin m → F)
    (oracle : ℕ → (Fin n → Fin m → F) → Fin n → ℕ) (seed B : ℕ) (ks : List ℕ) :
    (calculate_ssq F sq data oracleS ks vn).length = ks.length ∧
      (∀ i, ∀ hi : i < ks.length,
        (calculate_ssq F sq data oracleS ks vn).getD i 0 =
          ssqFor F sq data (oracleS (ks.get ⟨i, hi⟩)) vn) ∧
      (gapRecords F P x oracle seed B ks).length = ks.length ∧
      (∀ i, ∀ hi : i < ks.length,
        (recAt F (gapRecords F P x oracle seed B ks) i).k = ks.get ⟨i, hi⟩) ∧
      (∀ rs kR, estimate F P x oracle ks B seed = Except.ok (rs, kR) →
        rs = gapRecords F P x oracle seed B ks) := by
  refine ⟨List.length_map _ _, ?_, List.length_map _ _, ?_, ?_⟩
  · intro i hi
    exact calculate_ssq_getD F sq data oracleS vn ks i hi
  · intro i hi
    rw [gapRecords_recAt F P x oracle seed B ks i hi, mkRecord]
  · intro rs kR h
    unfold estimate at h
    split at h
    · exact absurd h (by simp)
    · split at h
      · exact absurd h (by simp)
      · split at h
        · have h2 := Except.ok.inj h
          exact (congrArg Prod.fst h2).symm
        · exact absurd h (by simp)

/-- Claim C7 witness: a concrete run produces two entries for two requested
k values and the first record carries k = 1. -/
theorem one_entry_per_k_witness :
    (calculate_ssq ℚ (fun v => v) xQ2 fitQ [1, 2] true).length = 2 ∧
      (recAt ℚ (gapRecords ℚ PidQ xQ2 oracleZero 7 0 [1, 2]) 0).k = 1 := by
  have h := one_entry_per_k ℚ (fun v => v) xQ2 fitQ true PidQ xQ2 oracleZero 7 0 [1, 2]
  refine ⟨h.1, ?_⟩
  have h4 := h.2.2.2.1 0 (by norm_num)
  simpa using h4

/-- Claim C8: the seeded random source fully determines the replicates and
the estimator output: equal seeds and equal inputs give identical replicate
point sets, identical records and the same recommendation. -/
theorem estimator_deterministic (F : Type) [LinearOrderedField F] {n m : ℕ}
    (P : GapParams F) (x : Fin n → Fin m → F)
    (oracle : ℕ → (Fin n → Fin m → F) → Fin n → ℕ) (ks : List ℕ) (B : ℕ)
    (seed1 seed2 : ℕ) (h : seed1 = seed2) :
    (∀ b, replicateGen F x seed1 b = replicateGen F x seed2 b) ∧
      estimate F P x oracle ks B seed1 = estimate F P x oracle ks B seed2 := by
  subst h
  exact ⟨fun _ => rfl, rfl⟩

/-- Claim C8 witness: two runs with the same concrete seed agree. -/
theorem estimator_deterministic_witness :
    (∀ b, replicateGen ℚ xQ2 7 b = replicateGen ℚ xQ2 7 b) ∧
      estimate ℚ PidQ xQ2 oracleZero [1, 2] 1 7 = estimate ℚ PidQ xQ2 oracleZero [1, 2] 1 7 :=
  estimator_deterministic ℚ PidQ xQ2 oracleZero [1, 2] 1 7 7 rfl

/-- Claim C9: `totss` — the sum of squared distances over unordered pairs
divided by N — equals the total sum of squared distances to the overall
mean, and in the variance-norm branch each entry equals
`100 * (1 - tot_withinss / total sum of squares)`. -/
theorem totss_is_total_ss {n m : ℕ} (data : Fin n → Fin m → ℝ)
    (oracleS : ℕ → FitResult ℝ m) (ks : List ℕ) :
    totss ℝ Real.sqrt data = ∑ i, sqDist ℝ (data i) (overallMean ℝ data) ∧
      (totss ℝ Real.sqrt data ≠ 0 → ∀ i, ∀ hi : i < ks.length,
        (calculate_ssq ℝ Real.sqrt data oracleS ks true).getD i 0 =
          100 * (1 - totWithinss ℝ Real.sqrt data (oracleS (ks.get ⟨i, hi⟩)).centers /
            (∑ i, sqDist ℝ (data i) (overallMean ℝ data)))) := by
  refine ⟨totss_eq_ss data, ?_⟩
  intro hne i hi
  rw [calculate_ssq_getD ℝ Real.sqrt data oracleS true ks i hi]
  rw [ssqFor, if_pos rfl]
  rw [← totss_eq_ss data]
  field_simp
  ring

/-- Claim C9 witness: on two concrete points the total sum of squares is
non-zero and the variance-norm entry takes the claimed form. -/
theorem totss_is_total_ss_witness :
    totss ℝ Real.sqrt xR2 ≠ 0 ∧
      (calculate_ssq ℝ Real.sqrt xR2 fitR [1] true).getD 0 0 =
        100 * (1 - totWithinss ℝ Real.sqrt xR2 (fitR 1).centers /
          (∑ i, sqDist ℝ (xR2 i) (overallMean ℝ xR2))) := by
  have hne : totss ℝ Real.sqrt xR2 ≠ 0 := by
    rw [(totss_is_total_ss xR2 fitR [1]).1]
    norm_num [sqDist, overallMean, Fin.sum_univ_two, Fin.sum_univ_one, xR2]
  exact ⟨hne, (totss_is_total_ss xR2 fitR [1]).2 hne 0 (by norm_num)⟩

/-- Claim C10: when all points are identical `totss` is zero, and the
variance-norm branch of `calculate_ssq` still computes
`betweenss / totss * 100` with a zero divisor — its codomain has no error
outcome, so no structured error is raised. -/
theorem variance_norm_divides_by_zero {n m : ℕ} (p : Fin m → ℝ)
    (oracleS : ℕ → FitResult ℝ m) (ks : List ℕ) :
    totss ℝ Real.sqrt (fun _ : Fin n => p) = 0 ∧
      (∀ i, ∀ hi : i < ks.length,
        (calculate_ssq ℝ Real.sqrt (fun _ : Fin n => p) oracleS ks true).getD i 0 =
          (0 - totWithinss ℝ Real.sqrt (fun _ : Fin n => p)
              (oracleS (ks.get ⟨i, hi⟩)).centers) / 0 * 100) := by
  have h0 : totss ℝ Real.sqrt (fun _ : Fin n => p) = 0 := by
    simp [totss, sqDist_self]
  refine ⟨h0, ?_⟩
  intro i hi
  rw [calculate_ssq_getD ℝ Real.sqrt (fun _ : Fin n => p) oracleS true ks i hi]
  rw [ssqFor, if_pos rfl, h0]

/-- Claim C10 witness: two identical concrete points exhibit the zero
divisor. -/
theorem variance_norm_divides_by_zero_witness :
    totss ℝ Real.sqrt (fun _ : Fin 2 => pR) = 0 ∧
      (calculate_ssq ℝ Real.sqrt (fun _ : Fin 2 => pR) fitR [1] true).getD 0 0 =
        (0 - totWithinss ℝ Real.sqrt (fun _ : Fin 2 => pR) (fitR 1).centers) / 0 * 100 := by
  have h := @variance_norm_divides_by_zero 2 1 pR fitR [1]
  exact ⟨h.1, h.2 0 (by norm_num)⟩

end ChoosingK
